import Mathlib

/-!
Verification of the ReliefWeb disasters scraper (`src/hdx/scraper/reliefweb/reliefweb.py`)
against its natural-language specification.

The development shallowly embeds the three relevant pieces of the program:

* `flatten_data` — the recursive JSON flattener `_flatten_data` with its
  closure-captured mutable accumulator `flat_dict` made into explicit state;
* `scrape_data` — the per-item fetch loop of `ReliefWeb.scrape_data`,
  where the external retriever is an input (a list of per-item outcomes);
* `generate_dataset` — the column-schema derivation of
  `ReliefWeb.generate_dataset` (only the part that touches the row list;
  the dataset-hosting collaborators are out of scope per the spec).

Python dictionaries are modelled as insertion-ordered association lists
(`List (String × JVal)`); dictionary assignment is `upsert` (update in place,
else append at the end), matching CPython dict semantics.
-/

namespace ReliefWeb

/-- JSON-like values: the tree shape of a ReliefWeb record.  Leaves are
string/number/boolean/null; nodes are insertion-ordered mappings or lists. -/
inductive JVal where
  | str (s : String)
  | int (n : Int)
  | bool (b : Bool)
  | null
  | dict (fields : List (String × JVal))
  | arr (elems : List JVal)

/-- Python `str()` on the values the flattener stores: strings unchanged,
numbers in decimal, `True`/`False`, `None`.  The `repr` of nested containers
is not modelled (no claim and no code path of interest stringifies one). -/
def pyStr : JVal → String
  | .str s => s
  | .int n => toString n
  | .bool b => if b then "True" else "False"
  | .null => "None"
  | .dict _ => "<dict>"
  | .arr _ => "<list>"

/-- A value is a scalar when it is neither a mapping nor a list. -/
def isScalar : JVal → Bool
  | .dict _ => false
  | .arr _ => false
  | _ => true

/-- Python dict assignment `m[k] = v` on an insertion-ordered association
list: replace the value at an existing key in place, else append. -/
def upsert {α : Type} : List (String × α) → String → α → List (String × α)
  | [], k, v => [(k, v)]
  | (k1, v1) :: rest, k, v =>
      if k1 = k then (k, v) :: rest else (k1, v1) :: upsert rest k v

/-- Python dict lookup `m.get(k)` on an association list. -/
def alookup {α : Type} : List (String × α) → String → Option α
  | [], _ => none
  | (k1, v1) :: rest, k => if k1 = k then some v1 else alookup rest k

/-- Python `m.pop(k, None)`: drop the entry at `k`, keep the rest in order. -/
def popKey {α : Type} : List (String × α) → String → List (String × α)
  | [], _ => []
  | (k1, v1) :: rest, k =>
      if k1 = k then popKey rest k else (k1, v1) :: popKey rest k

/-- The key construction `new_key = f"{parent_key}{sep}{key}" if parent_key else key`
of `_flatten_inner`. -/
def mkKey (sep pk k : String) : String := if pk = "" then k else pk ++ sep ++ k

/-- The `list_items` accumulation of `_flatten_inner`: `list_items.setdefault`
style insert-new-key-with-singleton, else append to the existing bucket. -/
def pushItem : List (String × List JVal) → String → JVal →
    List (String × List JVal)
  | [], k, v => [(k, [v])]
  | (k1, vs) :: rest, k, v =>
      if k1 = k then (k1, vs ++ [v]) :: rest
      else (k1, vs) :: pushItem rest k v

/-- The prefix scan inside the list branch of `_flatten_inner`: collect every
entry of the shared accumulator whose key starts with `parent_key + sep`,
with that root stripped from the key.  (Keys of `flat_dict` are unique, and
root stripping is injective, so a plain filter-and-map is the dict the
Python loop builds.) -/
def collectPrefixed (sep pk : String) (fd : List (String × JVal)) :
    List (String × JVal) :=
  let root := (pk ++ sep).data
  (fd.filter (fun q => root.isPrefixOf q.1.data)).map
    (fun q => (String.mk (q.1.data.drop root.length), q.2))

/-- The join `", ".join(map(str, v))` applied to one bucket of `list_items`. -/
def joined (vs : List JVal) : String := String.intercalate ", " (vs.map pyStr)

/-- The final loop of the list branch: for every bucket `k` of `list_items`,
write `flat_dict[f"{parent_key}{sep}{k}"] = ", ".join(map(str, v))`. -/
def emitList (sep pk : String) (li : List (String × List JVal))
    (fd : List (String × JVal)) : List (String × JVal) :=
  li.foldl (fun acc q => upsert acc (pk ++ sep ++ q.1) (.str (joined q.2))) fd

mutual

/-- Body of `_flatten_inner(item, parent_key)` with the closure-captured
`flat_dict` threaded explicitly as the last argument. -/
def flattenVal (sep : String) : JVal → String → List (String × JVal) →
    List (String × JVal)
  | .dict fields, pk, fd => flattenFields sep fields pk fd
  | .arr elems, pk, fd =>
      let q := flattenElems sep elems pk fd []
      emitList sep pk q.2 q.1
  | v, pk, fd => upsert fd pk v

/-- The dictionary branch of `_flatten_inner`: recurse into each child in
insertion order under the extended key. -/
def flattenFields (sep : String) : List (String × JVal) → String →
    List (String × JVal) → List (String × JVal)
  | [], _, fd => fd
  | (k, v) :: rest, pk, fd =>
      flattenFields sep rest pk (flattenVal sep v (mkKey sep pk k) fd)

/-- The list branch of `_flatten_inner`: mapping elements are flattened into
the SHARED accumulator under the unchanged parent key and then re-collected
by the prefix scan; other elements are stringified into the bucket of the
parent key itself.  Returns the updated accumulator and `list_items`. -/
def flattenElems (sep : String) : List JVal → String →
    List (String × JVal) → List (String × List JVal) →
    List (String × JVal) × List (String × List JVal)
  | [], _, fd, li => (fd, li)
  | .dict d :: rest, pk, fd, li =>
      let fd2 := flattenFields sep d pk fd
      let li2 := (collectPrefixed sep pk fd2).foldl
        (fun acc q => pushItem acc q.1 q.2) li
      flattenElems sep rest pk fd2 li2
  | v :: rest, pk, fd, li =>
      flattenElems sep rest pk fd (pushItem li pk (.str (pyStr v)))

end

/-- Embedding of `_flatten_data(data, sep="-")`: run `_flatten_inner` on the
whole record from the empty accumulator and empty parent key. -/
def flatten_data (data : JVal) (sep : String := "-") : List (String × JVal) :=
  flattenVal sep data "" []

/-- One step of `_format_data`: `d["fields"] = _flatten_data(d.pop("fields"))`.
The `pop` removes the entry, the assignment re-adds it at the end.  `none`
models the uncaught `KeyError`/`AttributeError` when the item is not a
mapping with a `fields` entry. -/
def format_item : JVal → Option JVal
  | .dict m =>
      match alookup m "fields" with
      | some fv =>
          some (.dict (popKey m "fields" ++ [("fields", .dict (flatten_data fv))]))
      | none => none
  | _ => none

/-- Python-style sequential processing of a list where any per-item failure
aborts the whole computation (an uncaught exception). -/
def mapOpt (f : JVal → Option JVal) : List JVal → Option (List JVal)
  | [] => some []
  | x :: rest =>
      match f x, mapOpt f rest with
      | some y, some ys => some (y :: ys)
      | _, _ => none

/-- Embedding of `_format_data(data)`: flatten the `fields` of every element
of `data["data"]` in place.  `none` models the uncaught exception when the
envelope does not have the expected shape. -/
def format_data : JVal → Option JVal
  | .dict m =>
      match alookup m "data" with
      | some (.arr items) =>
          match mapOpt format_item items with
          | some items2 => some (.dict (upsert m "data" (.arr items2)))
          | none => none
      | _ => none
  | _ => none

/-- The extraction `flat_data["data"][0]["fields"]` in `scrape_data`; `none`
models the uncaught `KeyError`/`IndexError` when the shape is wrong (for
example `data` an empty list). -/
def getData0Fields : JVal → Option (List (String × JVal))
  | .dict m =>
      match alookup m "data" with
      | some (.arr (first :: _)) =>
          match first with
          | .dict fm =>
              match alookup fm "fields" with
              | some (.dict fl) => some fl
              | _ => none
          | _ => none
      | _ => none
  | _ => none

/-- The fixed denylist `remove_keys` of `ReliefWeb.scrape_data`. -/
def remove_keys : List String :=
  ["uuid", "type-primary", "country-primary", "profile-overview",
   "profile-overview-html"]

/-- The loop `for key in remove_keys: disaster_fields.pop(key, None)`. -/
def pruneRow (m : List (String × JVal)) : List (String × JVal) :=
  remove_keys.foldl popKey m

/-- Outcome of `self._retriever.download_json(disaster_url)` for one item:
either an exception carrying a message string, or a JSON body. -/
inductive FetchResult where
  | fetchError (msg : String)
  | success (body : JVal)

/-- Substring containment on character lists, for Python `in` on strings. -/
def hasInfix (needle : List Char) : List Char → Bool
  | [] => needle.isEmpty
  | c :: rest => needle.isPrefixOf (c :: rest) || hasInfix needle rest

/-- The classification `"404" in str(e)` of a fetch exception. -/
def is404 (msg : String) : Bool := hasInfix "404".data msg.data

/-- Python truthiness of a JSON value, as tested by `if not disaster_data`. -/
def pyTruthy : JVal → Bool
  | .null => false
  | .bool b => b
  | .int n => n != 0
  | .str s => s != ""
  | .dict m => !m.isEmpty
  | .arr l => !l.isEmpty

/-- What the body of the `for disaster in disaster_list` loop does with one
item: skip it (both the logged 404 case and the logged error case
`continue`, as does an empty body), produce one pruned row, or crash with an
uncaught exception raised outside the `try` block. -/
inductive ItemStep where
  | crash
  | skipped
  | row (r : List (String × JVal))

/-- One iteration of the fetch loop of `ReliefWeb.scrape_data`. -/
def handle_item : FetchResult → ItemStep
  | .fetchError _ => .skipped
  | .success body =>
      if pyTruthy body then
        match format_data body with
        | some fd =>
            match getData0Fields fd with
            | some fields => .row (pruneRow fields)
            | none => .crash
        | none => .crash
      else .skipped

/-- Embedding of the fetch loop of `ReliefWeb.scrape_data`, run over the
sequence of per-item retriever outcomes.  `none` models the run aborting
with an uncaught exception; `some rows` is the returned `disasters_list`. -/
def scrape_data : List FetchResult → Option (List (List (String × JVal)))
  | [] => some []
  | r :: rest =>
      match handle_item r with
      | .crash => none
      | .skipped => scrape_data rest
      | .row row => (scrape_data rest).map (fun rows => row :: rows)

/-- Classification predicates for the three skip cases of the fetch loop. -/
def isNotFound : FetchResult → Bool
  | .fetchError msg => is404 msg
  | _ => false

/-- Predicate for a fetch error whose message does not contain `404`. -/
def isOtherError : FetchResult → Bool
  | .fetchError msg => !is404 msg
  | _ => false

/-- Predicate for a fetch that succeeded with a falsy (empty/null) body. -/
def isEmptyBody : FetchResult → Bool
  | .success body => !pyTruthy body
  | _ => false

/-- Shape of one element of the listing `data` array that the pipeline can
process without crashing: a mapping with a `fields` entry. -/
def recordItem : JVal → Bool
  | .dict m => (alookup m "fields").isSome
  | _ => false

/-- Shape of a detail body the pipeline can process without crashing: the
observed envelope `{"data": [{"fields": ...}, ...]}` with at least one
element. -/
def wfBody : JVal → Bool
  | .dict m =>
      match alookup m "data" with
      | some (.arr items) => !items.isEmpty && items.all recordItem
      | _ => false
  | _ => false

/-- Per-item hypothesis of the partial-failure claim: a fetched body is
either falsy (the logged-and-skipped empty case) or a well-shaped envelope. -/
def okShape : FetchResult → Bool
  | .fetchError _ => true
  | .success body => !pyTruthy body || wfBody body

/-- Result of `ReliefWeb.generate_dataset` as far as the row list is
concerned: either the derived column schema together with the rows, or the
uncaught `IndexError` from `disaster_list[0]`.  Dataset metadata, tagging
and the export collaborator are out of scope per the spec. -/
inductive DatasetResult where
  | dataset (columns : List String) (rows : List (List (String × JVal)))
  | indexError

/-- Embedding of the `generate_dataset` column-schema derivation: the column
order is `list(disaster_list[0].keys())`, which raises `IndexError` on an
empty row list (the function has no empty-batch guard). -/
def generate_dataset : List (List (String × JVal)) → DatasetResult
  | [] => .indexError
  | first :: rest => .dataset (first.map Prod.fst) (first :: rest)

mutual

/-- Written from the words of the spec, for comparison with the code: on a
tree with no lists, the flattening should have exactly one entry per scalar
leaf, keyed by the separator-joined path of mapping keys from the root,
in depth-first source order, with no entry for interior mapping nodes. -/
def specLeafEntries (sep : String) : JVal → String → List (String × JVal)
  | .dict fields, pk => specLeafFields sep fields pk
  | .arr _, _ => []
  | v, pk => [(pk, v)]

/-- Companion of `specLeafEntries` for a mapping: concatenate the leaf
entries of the children in source key order. -/
def specLeafFields (sep : String) : List (String × JVal) → String →
    List (String × JVal)
  | [], _ => []
  | (k, v) :: rest, pk =>
      specLeafEntries sep v (mkKey sep pk k) ++ specLeafFields sep rest pk

end

mutual

/-- A tree contains no lists anywhere. -/
def listFree : JVal → Bool
  | .dict fields => fieldsListFree fields
  | .arr _ => false
  | _ => true

/-- Companion of `listFree` for the children of a mapping. -/
def fieldsListFree : List (String × JVal) → Bool
  | [] => true
  | (_, v) :: rest => listFree v && fieldsListFree rest

end

/-- A list element of the uniform two-key shape `{a: v1, b: v2}` considered
by the uniform-list claim; `e.1` and `e.2` are the two values. -/
def mkEl (a b : String) (e : JVal × JVal) : JVal := .dict [(a, e.1), (b, e.2)]

/-- Fold a list of writes into an accumulator, one `upsert` per entry. -/
def upserts (fd : List (String × JVal)) (es : List (String × JVal)) :
    List (String × JVal) :=
  es.foldl (fun acc q => upsert acc q.1 q.2) fd

/-! Helper lemmas about strings and the association-list operations. -/

lemma string_mk_data (s : String) : String.mk s.data = s := by cases s; rfl

lemma string_data_inj {s t : String} (h : s.data = t.data) : s = t := by
  cases s; cases t; exact congrArg String.mk h

lemma data_append (s t : String) : (s ++ t).data = s.data ++ t.data := by
  cases s; cases t; rfl

lemma append_right_ne (r : String) {a b : String} (h : a ≠ b) :
    r ++ a ≠ r ++ b := by
  intro he
  apply h
  apply string_data_inj
  have hd := congrArg String.data he
  rw [data_append, data_append] at hd
  exact List.append_cancel_left hd

lemma mkKey_of_ne (sep pk k : String) (h : pk ≠ "") :
    mkKey sep pk k = pk ++ sep ++ k := by simp [mkKey, h]

lemma upsert_nil {α : Type} (k : String) (v : α) : upsert [] k v = [(k, v)] :=
  rfl

lemma upsert_head {α : Type} (k : String) (v1 v : α)
    (rest : List (String × α)) :
    upsert ((k, v1) :: rest) k v = (k, v) :: rest := by simp [upsert]

lemma upsert_cons_ne {α : Type} {k1 k : String} (h : k1 ≠ k) (v1 : α)
    (rest : List (String × α)) (v : α) :
    upsert ((k1, v1) :: rest) k v = (k1, v1) :: upsert rest k v := by
  simp [upsert, h]

lemma pushItem_nil (k : String) (v : JVal) : pushItem [] k v = [(k, [v])] :=
  rfl

lemma pushItem_head (k : String) (vs : List JVal)
    (rest : List (String × List JVal)) (v : JVal) :
    pushItem ((k, vs) :: rest) k v = (k, vs ++ [v]) :: rest := by
  simp [pushItem]

lemma pushItem_cons_ne {k1 k : String} (h : k1 ≠ k) (vs : List JVal)
    (rest : List (String × List JVal)) (v : JVal) :
    pushItem ((k1, vs) :: rest) k v = (k1, vs) :: pushItem rest k v := by
  simp [pushItem, h]

lemma collectPrefixed_two (sep p a b : String) (x y : JVal) :
    collectPrefixed sep p [(p ++ sep ++ a, x), (p ++ sep ++ b, y)] =
      [(a, x), (b, y)] := by
  have hpre : ∀ (s : String),
      ((p ++ sep).data).isPrefixOf ((p ++ sep ++ s).data) = true := by
    intro s
    rw [data_append (p ++ sep) s, List.isPrefixOf_iff_prefix]
    exact List.prefix_append _ _
  have hdrop : ∀ (s : String),
      String.mk (((p ++ sep ++ s).data).drop ((p ++ sep).data).length) = s := by
    intro s
    rw [data_append (p ++ sep) s, List.drop_left, string_mk_data]
  simp only [collectPrefixed, List.filter_cons, hpre a, hpre b, if_true,
    List.filter_nil, List.map_cons, List.map_nil]
  rw [hdrop a, hdrop b]

/-! Unfolding lemmas for the scalar cases of the flattener. -/

lemma flattenVal_scalar (sep : String) {v : JVal} (hv : isScalar v = true)
    (pk : String) (fd : List (String × JVal)) :
    flattenVal sep v pk fd = upsert fd pk v := by
  cases v with
  | dict m => simp [isScalar] at hv
  | arr l => simp [isScalar] at hv
  | str s => rfl
  | int n => rfl
  | bool b => rfl
  | null => rfl

lemma flattenElems_cons_scalar (sep : String) {v : JVal}
    (hv : isScalar v = true) (rest : List JVal) (pk : String)
    (fd : List (String × JVal)) (li : List (String × List JVal)) :
    flattenElems sep (v :: rest) pk fd li =
      flattenElems sep rest pk fd (pushItem li pk (.str (pyStr v))) := by
  cases v with
  | dict m => simp [isScalar] at hv
  | arr l => simp [isScalar] at hv
  | str s => rfl
  | int n => rfl
  | bool b => rfl
  | null => rfl

/-! Loop invariant for scalar-only lists. -/

lemma flattenElems_scalars (sep p : String) :
    ∀ (vs : List JVal), (∀ v ∈ vs, isScalar v = true) →
    ∀ (fd : List (String × JVal)) (ss : List JVal),
    flattenElems sep vs p fd [(p, ss)] =
      (fd, [(p, ss ++ vs.map (fun v => JVal.str (pyStr v)))]) := by
  intro vs
  induction vs with
  | nil => intro _ fd ss; simp [flattenElems]
  | cons v rest ih =>
    intro hsc fd ss
    have hv : isScalar v = true := hsc v (by simp)
    have hrest : ∀ w ∈ rest, isScalar w = true := fun w hw =>
      hsc w (by simp [hw])
    rw [flattenElems_cons_scalar sep hv, pushItem_head,
      ih hrest fd (ss ++ [JVal.str (pyStr v)])]
    simp

/-! Loop invariant for lists of uniform two-key mappings. -/

lemma flattenFields_pair (a b p : String) {v1 v2 : JVal}
    (h1 : isScalar v1 = true) (h2 : isScalar v2 = true) (hp : p ≠ "")
    (fd : List (String × JVal)) :
    flattenFields "-" [(a, v1), (b, v2)] p fd =
      upsert (upsert fd (p ++ "-" ++ a) v1) (p ++ "-" ++ b) v2 := by
  simp only [flattenFields]
  rw [mkKey_of_ne "-" p a hp, mkKey_of_ne "-" p b hp,
    flattenVal_scalar "-" h1, flattenVal_scalar "-" h2]

lemma flattenElems_uniform (a b p : String) (ha : a ≠ b) (hp : p ≠ "") :
    ∀ (L : List (JVal × JVal)),
      (∀ e ∈ L, isScalar e.1 = true ∧ isScalar e.2 = true) →
    ∀ (x y : JVal) (as bs : List JVal),
    ∃ x2 y2, flattenElems "-" (L.map (mkEl a b)) p
        [(p ++ "-" ++ a, x), (p ++ "-" ++ b, y)] [(a, as), (b, bs)] =
      ([(p ++ "-" ++ a, x2), (p ++ "-" ++ b, y2)],
       [(a, as ++ L.map Prod.fst), (b, bs ++ L.map Prod.snd)]) := by
  intro L
  induction L with
  | nil => intro _ x y as bs; exact ⟨x, y, by simp [flattenElems]⟩
  | cons e L ih =>
    intro hsc x y as bs
    have he1 : isScalar e.1 = true := (hsc e (by simp)).1
    have he2 : isScalar e.2 = true := (hsc e (by simp)).2
    have hL : ∀ f ∈ L, isScalar f.1 = true ∧ isScalar f.2 = true :=
      fun f hf => hsc f (by simp [hf])
    have hab : p ++ "-" ++ a ≠ p ++ "-" ++ b := append_right_ne _ ha
    obtain ⟨x2, y2, heq⟩ := ih hL e.1 e.2 (as ++ [e.1]) (bs ++ [e.2])
    refine ⟨x2, y2, ?_⟩
    rw [List.map_cons]
    rw [show mkEl a b e = JVal.dict [(a, e.1), (b, e.2)] from rfl]
    simp only [flattenElems]
    rw [flattenFields_pair a b p he1 he2 hp]
    rw [upsert_head, upsert_cons_ne hab, upsert_head]
    rw [collectPrefixed_two]
    simp only [List.foldl_cons, List.foldl_nil]
    rw [pushItem_head, pushItem_cons_ne ha, pushItem_head]
    rw [heq]
    simp

/-! Correspondence on list-free trees between the flattener and the
spec-side one-entry-per-leaf reading. -/

lemma upserts_append_split (fd : List (String × JVal))
    (es1 es2 : List (String × JVal)) :
    upserts fd (es1 ++ es2) = upserts (upserts fd es1) es2 := by
  simp [upserts, List.foldl_append]

mutual

theorem flattenVal_listFree (sep : String) :
    ∀ (T : JVal), listFree T = true →
    ∀ (pk : String) (fd : List (String × JVal)),
    flattenVal sep T pk fd = upserts fd (specLeafEntries sep T pk)
  | .dict fields, h, pk, fd => by
      have hf : fieldsListFree fields = true := by simpa [listFree] using h
      exact flattenFields_listFree sep fields hf pk fd
  | .arr elems, h, pk, fd => by simp [listFree] at h
  | .str s, _, pk, fd => rfl
  | .int n, _, pk, fd => rfl
  | .bool b, _, pk, fd => rfl
  | .null, _, pk, fd => rfl

theorem flattenFields_listFree (sep : String) :
    ∀ (fs : List (String × JVal)), fieldsListFree fs = true →
    ∀ (pk : String) (fd : List (String × JVal)),
    flattenFields sep fs pk fd = upserts fd (specLeafFields sep fs pk)
  | [], _, pk, fd => rfl
  | (k, v) :: rest, h, pk, fd => by
      have hv : listFree v = true := by
        have h2 := h
        simp [fieldsListFree, Bool.and_eq_true] at h2
        exact h2.1
      have hr : fieldsListFree rest = true := by
        have h2 := h
        simp [fieldsListFree, Bool.and_eq_true] at h2
        exact h2.2
      show flattenFields sep rest pk (flattenVal sep v (mkKey sep pk k) fd) = _
      rw [flattenVal_listFree sep v hv (mkKey sep pk k) fd,
        flattenFields_listFree sep rest hr pk
          (upserts fd (specLeafEntries sep v (mkKey sep pk k)))]
      show _ = upserts fd
        (specLeafEntries sep v (mkKey sep pk k) ++ specLeafFields sep rest pk)
      rw [upserts_append_split]

end

lemma upsert_fresh {k : String} (v : JVal) :
    ∀ (fd : List (String × JVal)), k ∉ fd.map Prod.fst →
    upsert fd k v = fd ++ [(k, v)] := by
  intro fd
  induction fd with
  | nil => intro _; rfl
  | cons q rest ih =>
    intro hk
    have h1 : q.1 ≠ k := by
      intro he
      exact hk (by simp [he])
    have h2 : k ∉ rest.map Prod.fst := fun hm => hk (by simp [hm])
    calc upsert (q :: rest) k v = upsert ((q.1, q.2) :: rest) k v := by rfl
      _ = (q.1, q.2) :: upsert rest k v := upsert_cons_ne h1 _ _ _
      _ = (q.1, q.2) :: (rest ++ [(k, v)]) := by rw [ih h2]
      _ = (q :: rest) ++ [(k, v)] := by simp

lemma upserts_fresh :
    ∀ (es fd : List (String × JVal)),
    (fd.map Prod.fst ++ es.map Prod.fst).Nodup →
    upserts fd es = fd ++ es := by
  intro es
  induction es with
  | nil => intro fd _; simp [upserts]
  | cons q rest ih =>
    intro fd hnd
    have hdisj : (fd.map Prod.fst).Disjoint (q.1 :: rest.map Prod.fst) := by
      have h2 : (fd.map Prod.fst).Nodup ∧ (q.1 :: rest.map Prod.fst).Nodup ∧
          (fd.map Prod.fst).Disjoint (q.1 :: rest.map Prod.fst) := by
        rw [← List.nodup_append]
        simpa using hnd
      exact h2.2.2
    have hk : q.1 ∉ fd.map Prod.fst := fun hm => hdisj hm (by simp)
    have hstep : upserts fd (q :: rest) = upserts (upsert fd q.1 q.2) rest := by
      simp [upserts]
    rw [hstep, upsert_fresh q.2 fd hk, ih (fd ++ [(q.1, q.2)]) ?_]
    · simp
    · simpa [List.append_assoc] using hnd

/-! Lookup lemmas for the row-pruning and envelope-extraction steps. -/

lemma alookup_popKey_self {α : Type} (m : List (String × α)) (k : String) :
    alookup (popKey m k) k = none := by
  induction m with
  | nil => rfl
  | cons q rest ih =>
    obtain ⟨k1, v1⟩ := q
    by_cases h : k1 = k
    · simp [popKey, h, ih]
    · simp [popKey, alookup, h, ih]

lemma alookup_popKey_other {α : Type} (m : List (String × α))
    {k k2 : String} (h : k2 ≠ k) :
    alookup (popKey m k) k2 = alookup m k2 := by
  induction m with
  | nil => rfl
  | cons q rest ih =>
    obtain ⟨k1, v1⟩ := q
    by_cases h1 : k1 = k
    · have h2 : k1 ≠ k2 := by
        rw [h1]
        exact fun he => h he.symm
      simp [popKey, alookup, h1, h2, Ne.symm h, ih]
    · simp [popKey, alookup, h1, ih]

lemma alookup_foldl_pop_of_not_mem :
    ∀ (ks : List String) (m : List (String × JVal)) (k : String), k ∉ ks →
    alookup (ks.foldl popKey m) k = alookup m k := by
  intro ks
  induction ks with
  | nil => intro m k _; rfl
  | cons k2 ks ih =>
    intro m k hk
    have h1 : k ≠ k2 := fun he => hk (by simp [he])
    have h2 : k ∉ ks := fun hm => hk (by simp [hm])
    rw [List.foldl_cons, ih _ _ h2, alookup_popKey_other _ h1]

lemma alookup_foldl_pop_of_mem :
    ∀ (ks : List String) (m : List (String × JVal)) (k : String), k ∈ ks →
    alookup (ks.foldl popKey m) k = none := by
  intro ks
  induction ks with
  | nil => intro m k hk; simp at hk
  | cons k2 ks ih =>
    intro m k hk
    by_cases hm : k ∈ ks
    · rw [List.foldl_cons]
      exact ih _ _ hm
    · have h1 : k = k2 := by
        rcases List.mem_cons.mp hk with h | h
        · exact h
        · exact absurd h hm
      rw [List.foldl_cons, alookup_foldl_pop_of_not_mem ks _ k hm, h1,
        alookup_popKey_self]

lemma pruneRow_denied (m : List (String × JVal)) (k : String)
    (hk : k ∈ remove_keys) : alookup (pruneRow m) k = none :=
  alookup_foldl_pop_of_mem remove_keys m k hk

lemma pruneRow_kept (m : List (String × JVal)) (k : String)
    (hk : k ∉ remove_keys) : alookup (pruneRow m) k = alookup m k :=
  alookup_foldl_pop_of_not_mem remove_keys m k hk

lemma alookup_upsert_self {α : Type} (m : List (String × α)) (k : String)
    (v : α) : alookup (upsert m k v) k = some v := by
  induction m with
  | nil => simp [upsert, alookup]
  | cons q rest ih =>
    obtain ⟨k1, v1⟩ := q
    by_cases h : k1 = k
    · simp [upsert, alookup, h]
    · simp [upsert, alookup, h, ih]

lemma alookup_popKey_append {α : Type} (m : List (String × α)) (k : String)
    (v : α) : alookup (popKey m k ++ [(k, v)]) k = some v := by
  induction m with
  | nil => simp [popKey, alookup]
  | cons q rest ih =>
    obtain ⟨k1, v1⟩ := q
    by_cases h : k1 = k
    · simp [popKey, h, ih]
    · simp [popKey, alookup, h, ih]

/-! Shape lemmas for the fetch pipeline. -/

lemma format_item_of_record (it : JVal) (h : recordItem it = true) :
    ∃ fv m, it = JVal.dict m ∧ format_item it =
      some (.dict (popKey m "fields" ++
        [("fields", .dict (flatten_data fv))])) := by
  cases it with
  | dict m =>
    cases halk : alookup m "fields" with
    | none => simp [recordItem, halk] at h
    | some fv => exact ⟨fv, m, rfl, by simp [format_item, halk]⟩
  | str s => simp [recordItem] at h
  | int n => simp [recordItem] at h
  | bool b => simp [recordItem] at h
  | null => simp [recordItem] at h
  | arr l => simp [recordItem] at h

lemma format_item_inv (it j : JVal) (h : format_item it = some j) :
    ∃ m fv, alookup m "fields" = some fv ∧
      j = .dict (popKey m "fields" ++
        [("fields", .dict (flatten_data fv))]) := by
  cases it with
  | dict m =>
    cases halk : alookup m "fields" with
    | none => simp [format_item, halk] at h
    | some fv =>
      simp [format_item, halk] at h
      exact ⟨m, fv, halk, h.symm⟩
  | str s => simp [format_item] at h
  | int n => simp [format_item] at h
  | bool b => simp [format_item] at h
  | null => simp [format_item] at h
  | arr l => simp [format_item] at h

lemma mapOpt_all_some (its : List JVal)
    (h : ∀ x ∈ its, recordItem x = true) :
    ∃ js, mapOpt format_item its = some js := by
  induction its with
  | nil => exact ⟨[], rfl⟩
  | cons it rest ih =>
    obtain ⟨fv, m, heq, hfi⟩ := format_item_of_record it (h it (by simp))
    obtain ⟨js, hjs⟩ := ih (fun x hx => h x (by simp [hx]))
    exact ⟨JVal.dict (popKey m "fields" ++
      [("fields", .dict (flatten_data fv))]) :: js,
      by simp [mapOpt, hfi, hjs]⟩

lemma mapOpt_cons_inv (f : JVal → Option JVal) (its : List JVal)
    (j0 : JVal) (js : List JVal) (h : mapOpt f its = some (j0 :: js)) :
    ∃ it0 rest, its = it0 :: rest ∧ f it0 = some j0 := by
  cases its with
  | nil => simp [mapOpt] at h
  | cons it0 rest =>
    cases hf : f it0 with
    | none => simp [mapOpt, hf] at h
    | some y =>
      cases hrest : mapOpt f rest with
      | none => simp [mapOpt, hf, hrest] at h
      | some ys =>
        simp [mapOpt, hf, hrest] at h
        exact ⟨it0, rest, rfl, by rw [hf, h.1]⟩

lemma format_data_inv (body fd : JVal) (h : format_data body = some fd) :
    ∃ m its its2, body = JVal.dict m ∧
      alookup m "data" = some (.arr its) ∧
      mapOpt format_item its = some its2 ∧
      fd = .dict (upsert m "data" (.arr its2)) := by
  cases body with
  | dict m =>
    cases hd : alookup m "data" with
    | none => simp [format_data, hd] at h
    | some dv =>
      cases dv with
      | arr its =>
        cases hmo : mapOpt format_item its with
        | none => simp [format_data, hd, hmo] at h
        | some its2 =>
          simp [format_data, hd, hmo] at h
          exact ⟨m, its, its2, rfl, hd, hmo, h.symm⟩
      | str s => simp [format_data, hd] at h
      | int n => simp [format_data, hd] at h
      | bool b => simp [format_data, hd] at h
      | null => simp [format_data, hd] at h
      | dict m2 => simp [format_data, hd] at h
  | str s => simp [format_data] at h
  | int n => simp [format_data] at h
  | bool b => simp [format_data] at h
  | null => simp [format_data] at h
  | arr l => simp [format_data] at h

lemma getData0Fields_of_format (body fd : JVal)
    (fields : List (String × JVal)) (h1 : format_data body = some fd)
    (h2 : getData0Fields fd = some fields) :
    ∃ fv, fields = flatten_data fv := by
  obtain ⟨m, its, its2, hbody, hd, hmo, hfd⟩ := format_data_inv body fd h1
  subst hfd
  cases its2 with
  | nil =>
    rw [show getData0Fields (.dict (upsert m "data" (.arr []))) = none by
      simp [getData0Fields, alookup_upsert_self]] at h2
    exact absurd h2 (by simp)
  | cons j0 js =>
    obtain ⟨it0, rest, hits, hfi⟩ := mapOpt_cons_inv format_item its j0 js hmo
    obtain ⟨m0, fv, halk, hj0⟩ := format_item_inv it0 j0 hfi
    subst hj0
    rw [show getData0Fields (.dict (upsert m "data"
        (.arr (JVal.dict (popKey m0 "fields" ++
          [("fields", .dict (flatten_data fv))]) :: js)))) =
        some (flatten_data fv) by
      simp [getData0Fields, alookup_upsert_self, alookup_popKey_append]] at h2
    exact ⟨fv, by simpa using h2.symm⟩

lemma handle_item_wf (body : JVal) (h : wfBody body = true) :
    ∃ fv, handle_item (.success body) = .row (pruneRow (flatten_data fv)) := by
  cases body with
  | dict m =>
    cases hd : alookup m "data" with
    | none => simp [wfBody, hd] at h
    | some dv =>
      cases dv with
      | arr items =>
        have h2 : items.isEmpty = false ∧ ∀ x ∈ items, recordItem x = true := by
          have h3 := h
          simp [wfBody, hd, Bool.and_eq_true] at h3
          exact ⟨by simpa using h3.1, h3.2⟩
        cases items with
        | nil => simp at h2
        | cons it0 rest =>
          obtain ⟨fv, m0, heq0, hfi0⟩ :=
            format_item_of_record it0 (h2.2 it0 (by simp))
          obtain ⟨js, hjs⟩ :=
            mapOpt_all_some rest (fun x hx => h2.2 x (by simp [hx]))
          have htr : pyTruthy (.dict m) = true := by
            cases m with
            | nil => simp [alookup] at hd
            | cons q r => simp [pyTruthy]
          have hfd : format_data (.dict m) = some (.dict (upsert m "data"
              (.arr (JVal.dict (popKey m0 "fields" ++
                [("fields", .dict (flatten_data fv))]) :: js)))) := by
            subst heq0
            simp [format_data, hd, mapOpt, hfi0, hjs]
          have hg : getData0Fields (.dict (upsert m "data"
              (.arr (JVal.dict (popKey m0 "fields" ++
                [("fields", .dict (flatten_data fv))]) :: js)))) =
              some (flatten_data fv) := by
            simp [getData0Fields, alookup_upsert_self, alookup_popKey_append]
          exact ⟨fv, by simp [handle_item, htr, hfd, hg]⟩
      | str s => simp [wfBody, hd] at h
      | int n => simp [wfBody, hd] at h
      | bool b => simp [wfBody, hd] at h
      | null => simp [wfBody, hd] at h
      | dict m2 => simp [wfBody, hd] at h
  | str s => simp [wfBody] at h
  | int n => simp [wfBody] at h
  | bool b => simp [wfBody] at h
  | null => simp [wfBody] at h
  | arr l => simp [wfBody] at h

lemma handle_item_row_inv (r : FetchResult) (row : List (String × JVal))
    (h : handle_item r = .row row) :
    ∃ fv, row = pruneRow (flatten_data fv) := by
  cases r with
  | fetchError msg => simp [handle_item] at h
  | success body =>
    by_cases htr : pyTruthy body = true
    · cases hfd : format_data body with
      | none => simp [handle_item, htr, hfd] at h
      | some fd =>
        cases hg : getData0Fields fd with
        | none => simp [handle_item, htr, hfd, hg] at h
        | some fields =>
          have hrow : pruneRow fields = row := by
            simpa [handle_item, htr, hfd, hg] using h
          obtain ⟨fv, hfv⟩ := getData0Fields_of_format body fd fields hfd hg
          exact ⟨fv, by rw [← hrow, hfv]⟩
    · have htr2 : pyTruthy body = false := by simpa using htr
      simp [handle_item, htr2] at h

lemma scrape_data_counts :
    ∀ (rs : List FetchResult), (∀ x ∈ rs, okShape x = true) →
    ∃ rows, scrape_data rs = some rows ∧
      rows.length + rs.countP isNotFound + rs.countP isOtherError +
        rs.countP isEmptyBody = rs.length := by
  intro rs
  induction rs with
  | nil => intro _; exact ⟨[], rfl, rfl⟩
  | cons r rest ih =>
    intro h
    obtain ⟨rows, hs, hlen⟩ := ih (fun x hx => h x (by simp [hx]))
    cases r with
    | fetchError msg =>
      refine ⟨rows, by simp [scrape_data, handle_item, hs], ?_⟩
      simp only [List.countP_cons, List.length_cons, isNotFound,
        isOtherError, isEmptyBody]
      by_cases h404 : is404 msg = true
      · simp [h404]
        omega
      · simp [h404]
        omega
    | success body =>
      cases htr : pyTruthy body with
      | false =>
        refine ⟨rows, by simp [scrape_data, handle_item, htr, hs], ?_⟩
        simp only [List.countP_cons, List.length_cons, isNotFound,
          isOtherError, isEmptyBody, htr]
        simp
        omega
      | true =>
        have hwf : wfBody body = true := by
          have h3 : okShape (.success body) = true := h _ (by simp)
          simp [okShape, htr] at h3
          exact h3
        obtain ⟨fv, hhi⟩ := handle_item_wf body hwf
        refine ⟨pruneRow (flatten_data fv) :: rows,
          by simp [scrape_data, hhi, hs], ?_⟩
        simp only [List.countP_cons, List.length_cons, isNotFound,
          isOtherError, isEmptyBody, htr]
        simp
        omega

lemma scrape_rows_shape :
    ∀ (rs : List FetchResult) (rows : List (List (String × JVal))),
    scrape_data rs = some rows →
    ∀ row ∈ rows, ∃ fv, row = pruneRow (flatten_data fv) := by
  intro rs
  induction rs with
  | nil =>
    intro rows h row hm
    have h2 : rows = [] := by simpa [scrape_data] using h.symm
    subst h2
    simp at hm
  | cons r rest ih =>
    intro rows h row hm
    cases hhi : handle_item r with
    | crash => simp [scrape_data, hhi] at h
    | skipped =>
      rw [show scrape_data (r :: rest) = scrape_data rest by
        simp [scrape_data, hhi]] at h
      exact ih rows h row hm
    | row r0 =>
      rw [show scrape_data (r :: rest) =
          (scrape_data rest).map (fun rows2 => r0 :: rows2) by
        simp [scrape_data, hhi]] at h
      cases hs : scrape_data rest with
      | none => rw [hs] at h; simp at h
      | some rows2 =>
        rw [hs] at h
        simp at h
        subst h
        rcases List.mem_cons.mp hm with hr | hr
        · subst hr
          exact handle_item_row_inv r row hhi
        · exact ih rows2 hs row hr

/-- C10: on the non-uniform list `{"p": [{"a": 1}, {"b": 2}]}` the flattener
re-collects the first element's already-emitted value when the second
element lacks that sub-key, because the per-element prefix scan reads the
shared accumulator that still holds the first element's entry: the result
is `{"p-a": "1, 1", "p-b": "2"}`. -/
theorem c10_stale_accumulator_recollection :
    flatten_data (.dict [("p", .arr [.dict [("a", .int 1)],
      .dict [("b", .int 2)]])]) =
      [("p-a", .str "1, 1"), ("p-b", .str "2")] := rfl

/-- C1: for every nonempty list at path `p` whose elements are all mappings
with exactly the key set `{a, b}` (scalar values), flattening produces the
keys `p-a` and `p-b`, each mapped to the comma-join of exactly `len(list)`
values, one per element in element order: the value lists are
`L.map Prod.fst` and `L.map Prod.snd`, whose lengths equal `L.length`. -/
theorem c1_uniform_mapping_lists (a b p : String) (ha : a ≠ b) (hp : p ≠ "")
    (L : List (JVal × JVal)) (hne : L ≠ [])
    (hsc : ∀ e ∈ L, isScalar e.1 = true ∧ isScalar e.2 = true) :
    flatten_data (.dict [(p, .arr (L.map (mkEl a b)))]) =
      [(p ++ "-" ++ a, .str (joined (L.map Prod.fst))),
       (p ++ "-" ++ b, .str (joined (L.map Prod.snd)))] ∧
    (L.map Prod.fst).length = L.length ∧
    (L.map Prod.snd).length = L.length := by
  refine ⟨?_, by simp, by simp⟩
  cases L with
  | nil => exact absurd rfl hne
  | cons e L =>
    have he1 : isScalar e.1 = true := (hsc e (by simp)).1
    have he2 : isScalar e.2 = true := (hsc e (by simp)).2
    have hL : ∀ f ∈ L, isScalar f.1 = true ∧ isScalar f.2 = true :=
      fun f hf => hsc f (by simp [hf])
    have hab : p ++ "-" ++ a ≠ p ++ "-" ++ b := append_right_ne _ ha
    have h0 : flatten_data (.dict [(p, .arr ((e :: L).map (mkEl a b)))]) =
        emitList "-" p
          (flattenElems "-" ((e :: L).map (mkEl a b)) p [] []).2
          (flattenElems "-" ((e :: L).map (mkEl a b)) p [] []).1 := rfl
    rw [h0, List.map_cons,
      show mkEl a b e = JVal.dict [(a, e.1), (b, e.2)] from rfl]
    simp only [flattenElems]
    rw [flattenFields_pair a b p he1 he2 hp]
    rw [upsert_nil, upsert_cons_ne hab, upsert_nil]
    rw [collectPrefixed_two]
    simp only [List.foldl_cons, List.foldl_nil]
    rw [pushItem_nil, pushItem_cons_ne ha, pushItem_nil]
    obtain ⟨x2, y2, heq⟩ :=
      flattenElems_uniform a b p ha hp L hL e.1 e.2 [e.1] [e.2]
    rw [heq]
    simp only [emitList, List.foldl_cons, List.foldl_nil]
    rw [upsert_head, upsert_cons_ne hab, upsert_head]
    simp

/-- C1 (witness): the spec scenario literal
`flatten({"type": [{"id": 1, "name": "A"}, {"id": 2, "name": "B"}]})`,
which evaluates to `{"type-id": "1, 2", "type-name": "A, B"}`. -/
theorem c1_witness :
    flatten_data (.dict [("type", .arr
      ([((JVal.int 1 : JVal), (JVal.str "A" : JVal)),
        (JVal.int 2, JVal.str "B")].map (mkEl "id" "name")))]) =
      [("type" ++ "-" ++ "id", .str (joined
         ([((JVal.int 1 : JVal), (JVal.str "A" : JVal)),
           (JVal.int 2, JVal.str "B")].map Prod.fst))),
       ("type" ++ "-" ++ "name", .str (joined
         ([((JVal.int 1 : JVal), (JVal.str "A" : JVal)),
           (JVal.int 2, JVal.str "B")].map Prod.snd)))] ∧
    ([((JVal.int 1 : JVal), (JVal.str "A" : JVal)),
      (JVal.int 2, JVal.str "B")].map Prod.fst).length = 2 ∧
    ([((JVal.int 1 : JVal), (JVal.str "A" : JVal)),
      (JVal.int 2, JVal.str "B")].map Prod.snd).length = 2 :=
  c1_uniform_mapping_lists "id" "name" "type" (by decide) (by decide)
    [((JVal.int 1 : JVal), (JVal.str "A" : JVal)), (JVal.int 2, JVal.str "B")]
    (List.cons_ne_nil _ _) (by decide)

/-- C8: the flattener is deterministic — two calls on the same input tree
produce identical output mappings (identical key list, key order and
values).  In the embedding the mutable accumulator of `_flatten_inner` is
threaded explicitly and always starts empty, so the output is a pure
function of the input tree alone. -/
theorem c8_flatten_deterministic (d : JVal) (sep : String) :
    flatten_data d sep = flatten_data d sep := rfl

/-- C5 (evidence for the code bug): on an empty batch the embedded
`generate_dataset` produces the uncaught `IndexError` outcome of
`disaster_list[0]` — there is no nothing-to-publish path, although the
declared return type `Optional[Dataset]` and the spec promise one. -/
theorem c5_empty_batch_index_error :
    generate_dataset [] = DatasetResult.indexError := rfl

/-- C2 (counterexample): flattening the scalar-only list `{"p": [1, 2]}`
does not yield the single entry under the key `p` itself; the scalar branch
files the values under the full parent key and the emission loop prefixes
the parent key again, so the key actually produced is `p-p`. -/
theorem c2_counterexample :
    flatten_data (.dict [("p", .arr [.int 1, .int 2])]) =
      [("p-p", .str "1, 2")] ∧
    (flatten_data (.dict [("p", .arr [.int 1, .int 2])])).map Prod.fst ≠
      ["p"] :=
  ⟨rfl, by decide⟩

/-- C2 (amended): for every nonempty scalar-only list `L` at path `p`,
`flatten({p: L})` yields exactly one entry, whose value is
`join(map(str, L), ", ")` as claimed, but whose key is `p + sep + p` (the
parent key re-prefixed with itself), not `p`: the scalar branch files the
values under the full parent key and the emission loop prefixes the parent
key again. -/
theorem c2_amended_doubled_key (p : String) (vs : List JVal) (hne : vs ≠ [])
    (hsc : ∀ v ∈ vs, isScalar v = true) :
    flatten_data (.dict [(p, .arr vs)]) =
      [(p ++ "-" ++ p, .str (String.intercalate ", " (vs.map pyStr)))] := by
  cases vs with
  | nil => exact absurd rfl hne
  | cons v rest =>
    have hv : isScalar v = true := hsc v (by simp)
    have hrest : ∀ w ∈ rest, isScalar w = true := fun w hw =>
      hsc w (by simp [hw])
    have h0 : flatten_data (.dict [(p, .arr (v :: rest))]) =
        emitList "-" p (flattenElems "-" (v :: rest) p [] []).2
          (flattenElems "-" (v :: rest) p [] []).1 := rfl
    rw [h0, flattenElems_cons_scalar "-" hv, pushItem_nil,
      flattenElems_scalars "-" p rest hrest]
    simp only [emitList, List.foldl_cons, List.foldl_nil, upsert_nil]
    have hmaps : List.map (pyStr ∘ fun w => JVal.str (pyStr w)) rest =
        List.map pyStr rest := List.map_congr_left (fun w _ => rfl)
    simp only [joined, List.singleton_append, List.map_cons, List.map_map]
    rw [show pyStr (JVal.str (pyStr v)) = pyStr v from rfl, hmaps]

/-- C2 (witness): the amended theorem applied to the concrete scalar list
`{"p": [1, 2]}`, which flattens to `{"p-p": "1, 2"}`. -/
theorem c2_amended_witness :
    flatten_data (.dict [("p", .arr [.int 1, .int 2])]) =
      [("p" ++ "-" ++ "p", .str (String.intercalate ", "
        ([JVal.int 1, JVal.int 2].map pyStr)))] :=
  c2_amended_doubled_key "p" [.int 1, .int 2]
    (List.cons_ne_nil _ _) (by decide)

/-- C3 (counterexample): an empty-mapping element does NOT always contribute
nothing.  Flattening `{"p": [{"a": 1}, {}]}` gives `{"p-a": "1, 1"}` — the
empty element re-contributes the value the accumulator still holds for
`p-a` — which differs from flattening `{"p": [{"a": 1}]}` with the empty
element removed, so position does matter. -/
theorem c3_counterexample :
    flatten_data (.dict [("p", .arr [.dict [("a", .int 1)], .dict []])]) ≠
    flatten_data (.dict [("p", .arr [.dict [("a", .int 1)]])]) := by
  intro h
  have h2 : (["1, 1"] : List String) = ["1"] :=
    congrArg (fun l => l.map (fun q => pyStr q.2)) h
  exact absurd h2 (by decide)

/-- C3 (amended): an empty-mapping list element contributes nothing exactly
when no sub-key of the list path has been emitted yet, in particular when
it precedes the non-empty elements: a leading empty mapping can be removed
without changing the result. -/
theorem c3_amended_leading_empty_dropped (p : String) (L : List JVal) :
    flatten_data (.dict [(p, .arr (.dict [] :: L))]) =
      flatten_data (.dict [(p, .arr L)]) := rfl

/-- C6 (counterexample): a list-free tree need not produce one entry per
scalar leaf.  In `{"a": {"b": 1}, "a-b": 2}` the joined path of the nested
leaf collides with the top-level key `a-b`, the second write overwrites the
first, and the output has one entry although the tree has two leaves. -/
theorem c6_counterexample :
    (flatten_data (.dict [("a", .dict [("b", .int 1)]),
      ("a-b", .int 2)])).length = 1 ∧
    (specLeafEntries "-" (.dict [("a", .dict [("b", .int 1)]),
      ("a-b", .int 2)]) "").length = 2 ∧
    listFree (.dict [("a", .dict [("b", .int 1)]), ("a-b", .int 2)]) = true :=
  ⟨rfl, rfl, rfl⟩

/-- C6 (amended): for every list-free tree whose leaves have pairwise
distinct separator-joined paths, flattening produces exactly the depth-first
list of leaf entries — one entry per scalar leaf, keyed by the joined path
from the root, with no entry for interior mapping nodes.  (Without the
distinctness proviso a later leaf whose joined path collides with an
earlier one overwrites it, as the counterexample shows.) -/
theorem c6_amended_leaf_entries (T : JVal) (h1 : listFree T = true)
    (h2 : ((specLeafEntries "-" T "").map Prod.fst).Nodup) :
    flatten_data T = specLeafEntries "-" T "" := by
  have h := flattenVal_listFree "-" T h1 "" []
  rw [show flatten_data T = flattenVal "-" T "" [] from rfl, h]
  have h3 := upserts_fresh (specLeafEntries "-" T "") []
  rw [h3 (by simpa using h2)]
  simp

/-- C6 (witness): the amended theorem applied to the concrete list-free tree
`{"a": {"b": {"c": 5}}, "d": 7}`, whose two leaves have the distinct joined
paths `a-b-c` and `d`. -/
theorem c6_witness :
    flatten_data (.dict [("a", .dict [("b", .dict [("c", .int 5)])]),
      ("d", .int 7)]) =
    specLeafEntries "-" (.dict [("a", .dict [("b", .dict [("c", .int 5)])]),
      ("d", .int 7)]) "" :=
  c6_amended_leaf_entries _ rfl (by decide)

/-- C4: in the record fetch pipeline, every per-item failure — a fetch
error whose message contains `404`, any other fetch error, or an
empty/falsy detail body — causes only that item to be skipped while
processing continues (the run returns a row list instead of aborting), and
the output length equals the number of listed items minus the not-found
count, the other-error count and the empty-body count.  The hypothesis
restricts the remaining items to the observed envelope shape, which is the
only shape the extraction step can process without an uncaught exception. -/
theorem c4_per_item_failures_skipped (rs : List FetchResult)
    (h : rs.all okShape = true) :
    ∃ rows, scrape_data rs = some rows ∧
      rows.length = rs.length - rs.countP isNotFound -
        rs.countP isOtherError - rs.countP isEmptyBody := by
  obtain ⟨rows, hs, hlen⟩ := scrape_data_counts rs (by simpa using h)
  exact ⟨rows, hs, by omega⟩

/-- C4 (witness): a four-item run with one not-found error, one other
error, one empty body and one good record returns exactly one row. -/
theorem c4_witness :
    ∃ rows, scrape_data [FetchResult.fetchError "HTTP Error 404: Not Found",
        .fetchError "timeout", .success .null,
        .success (.dict [("data", .arr [.dict [("fields",
          .dict [("id", .int 52108)])]])])] = some rows ∧
      rows.length = 1 :=
  c4_per_item_failures_skipped
    [FetchResult.fetchError "HTTP Error 404: Not Found",
     .fetchError "timeout", .success .null,
     .success (.dict [("data", .arr [.dict [("fields",
       .dict [("id", .int 52108)])]])])] (by decide)

/-- C7: every row produced by the fetch pipeline is the flattened record
with the fixed denylist applied: none of `uuid`, `type-primary`,
`country-primary`, `profile-overview`, `profile-overview-html` occurs in
the row, even when the flattened record contains them, and every other key
looks up to exactly its value in the flattened record. -/
theorem c7_denylist_removed (rs : List FetchResult)
    (rows : List (List (String × JVal))) (hs : scrape_data rs = some rows)
    (row : List (String × JVal)) (hm : row ∈ rows) :
    ∃ fv, row = pruneRow (flatten_data fv) ∧
      (∀ k ∈ remove_keys, alookup row k = none) ∧
      (∀ k, k ∉ remove_keys → alookup row k = alookup (flatten_data fv) k) := by
  obtain ⟨fv, hrow⟩ := scrape_rows_shape rs rows hs row hm
  subst hrow
  exact ⟨fv, rfl, fun k hk => pruneRow_denied _ k hk,
    fun k hk => pruneRow_kept _ k hk⟩

/-- C7 (witness): a record whose fields contain the denylist key `uuid`
comes out of the pipeline as a row without it, other keys unchanged. -/
theorem c7_witness :
    ∃ fv, [("id", JVal.int 1)] = pruneRow (flatten_data fv) ∧
      (∀ k ∈ remove_keys, alookup [("id", JVal.int 1)] k = none) ∧
      (∀ k, k ∉ remove_keys →
        alookup [("id", JVal.int 1)] k = alookup (flatten_data fv) k) :=
  c7_denylist_removed
    [.success (.dict [("data", .arr [.dict [("fields",
      .dict [("id", .int 1), ("uuid", .str "x")])]])])]
    [[("id", JVal.int 1)]] rfl [("id", JVal.int 1)] (by simp)

end ReliefWeb

